import Mathlib

/-!
A verification development for the bindgen type-layout selection and
binding-code generation engine of the roc repository.  The engine takes an
already-resolved graph of structural types (records and tag unions,
including self-recursive ones), classifies each type into a representation
strategy, computes a deterministic size-sorted slot ordering and an
alphabetical discriminant numbering, determines which derivable operation
capabilities are sound for each representation, and emits Rust declarations
plus operation bodies.  The expected emissions are pinned by the fixtures in
src/bindgen/tests/gen_rs.rs.
-/

namespace RocBindgen

/-- Structural types as supplied to the generator: fixed-size scalars,
owned text and sequence handles, records with named fields, tag unions with
named variants carrying payload lists, and an explicit back-edge marker for
self-recursive tag unions.  Composite constructors carry their resolved
name (user alias or synthetic name assigned by the name resolver). -/
inductive RocType where
  | u8 | u16 | u32 | u64 | u128
  | i8 | i16 | i32 | i64 | i128
  | f32 | f64
  | bool
  | unit
  | str
  | list (elem : RocType)
  | record (name : String) (fields : List (String × RocType))
  | tagUnion (name : String) (variants : List (String × List RocType))
  | selfRef

mutual

/-- Modelled from the spec: physical slot sizes on the 64-bit target used by
the fixtures (the bindgen_rs size computation is not under src/; scalar
widths are standard, the owned text and sequence handles are
pointer/length/capacity triples of 24 bytes, a self-reference is one
pointer word). -/
def typeSize : RocType → Nat
  | .u8 => 1
  | .u16 => 2
  | .u32 => 4
  | .u64 => 8
  | .u128 => 16
  | .i8 => 1
  | .i16 => 2
  | .i32 => 4
  | .i64 => 8
  | .i128 => 16
  | .f32 => 4
  | .f64 => 8
  | .bool => 1
  | .unit => 0
  | .str => 24
  | .list _ => 24
  | .record _ fs => fieldsSize fs
  | .tagUnion _ vs => variantsSize vs + 1
  | .selfRef => 8

def fieldsSize : List (String × RocType) → Nat
  | [] => 0
  | f :: rest => typeSize f.2 + fieldsSize rest

def variantsSize : List (String × List RocType) → Nat
  | [] => 0
  | v :: rest => max (payloadSize v.2) (variantsSize rest)

def payloadSize : List RocType → Nat
  | [] => 0
  | t :: rest => typeSize t + payloadSize rest

end

mutual

/-- Modelled from the spec: whether a floating-point slot is reachable from
a type (the bindgen_rs capability analysis is not under src/); total
equality, ordering and hashing are withheld when one is. -/
def hasFloat : RocType → Bool
  | .f32 => true
  | .f64 => true
  | .list t => hasFloat t
  | .record _ fs => fieldsHaveFloat fs
  | .tagUnion _ vs => variantsHaveFloat vs
  | _ => false

def fieldsHaveFloat : List (String × RocType) → Bool
  | [] => false
  | f :: rest => hasFloat f.2 || fieldsHaveFloat rest

def variantsHaveFloat : List (String × List RocType) → Bool
  | [] => false
  | v :: rest => payloadHasFloat v.2 || variantsHaveFloat rest

def payloadHasFloat : List RocType → Bool
  | [] => false
  | t :: rest => hasFloat t || payloadHasFloat rest

end

mutual

/-- Modelled from the spec: whether a type owns a resource that requires
explicit release on destruction (owned text, owned sequences, and the heap
block behind a self-reference pointer); such types are not trivially
copyable and their union members are wrapped against default teardown. -/
def ownsResource : RocType → Bool
  | .str => true
  | .list _ => true
  | .selfRef => true
  | .record _ fs => fieldsOwnResource fs
  | .tagUnion _ vs => variantsOwnResource vs
  | _ => false

def fieldsOwnResource : List (String × RocType) → Bool
  | [] => false
  | f :: rest => ownsResource f.2 || fieldsOwnResource rest

def variantsOwnResource : List (String × List RocType) → Bool
  | [] => false
  | v :: rest => payloadOwnsResource v.2 || variantsOwnResource rest

def payloadOwnsResource : List RocType → Bool
  | [] => false
  | t :: rest => ownsResource t || payloadOwnsResource rest

end

/-- Lexicographic strictly-less test on character lists by code point, the
alphabetical order used for discriminant assignment. -/
def charListLtb : List Char → List Char → Bool
  | [], [] => false
  | [], _ :: _ => true
  | _ :: _, [] => false
  | a :: as, b :: bs =>
    if a.toNat < b.toNat then true
    else if b.toNat < a.toNat then false
    else charListLtb as bs

/-- Alphabetical strictly-less test on names. -/
def alphaLtb (a b : String) : Bool := charListLtb a.data b.data

/-- Alphabetical strict order on names. -/
def alphaLT (a b : String) : Prop := alphaLtb a b = true

/-- Alphabetical non-strict order on names, the relation the name sort
uses. -/
def alphaLE (a b : String) : Prop := alphaLtb b a = false

instance : DecidableRel alphaLE := fun a b => by
  unfold alphaLE; infer_instance

instance : DecidableRel alphaLT := fun a b => by
  unfold alphaLT; infer_instance

/-- Modelled from the spec: alphabetical ordering of variant names used for
discriminant assignment (sorting all variant names alphabetically and
numbering from 0, independent of declaration order). -/
def sortNames (names : List String) : List String :=
  names.insertionSort alphaLE

/-- Pairs each element of an already-sorted name list with its rank,
counting up from the given start value. -/
def withRanks (start : Nat) : List String → List (String × Nat)
  | [] => []
  | a :: rest => (a, start) :: withRanks (start + 1) rest

/-- Modelled from the spec: the discriminant-to-name mapping of a tag
union, assigning each variant name its alphabetical rank starting at 0. -/
def discriminants (names : List String) : List (String × Nat) :=
  withRanks 0 (sortNames names)

/-- Ordering used for slot layout: a slot comes no later than another when
its physical size is strictly larger, or the sizes tie and its original
declaration index is no larger.  Slots are decorated with their declaration
index before sorting. -/
def slotKeyLE (a b : Nat × String × RocType) : Prop :=
  typeSize b.2.2 < typeSize a.2.2 ∨
    (typeSize a.2.2 = typeSize b.2.2 ∧ a.1 ≤ b.1)

instance : DecidableRel slotKeyLE := fun a b => by
  unfold slotKeyLE; infer_instance

instance : IsTotal (Nat × String × RocType) slotKeyLE :=
  ⟨by intro a b; unfold slotKeyLE; omega⟩

instance : IsTrans (Nat × String × RocType) slotKeyLE :=
  ⟨by intro a b c; unfold slotKeyLE; omega⟩

/-- Modelled from the spec: the record layout rule.  Slots are sorted by
strictly descending physical size, ties broken by original declaration
order; implemented by decorating each slot with its declaration index and
running a sort whose key is (descending size, ascending index). -/
def sortSlots (fields : List (String × RocType)) : List (String × RocType) :=
  ((fields.enum).insertionSort slotKeyLE).map Prod.snd

/-- Modelled from the spec: positional slot renaming for a single-variant
tag union with several payload fields, whose original field names are not
preserved across the variant boundary. -/
def positionalFields (ps : List RocType) : List (String × RocType) :=
  ps.enum.map (fun p => ("f" ++ toString p.1, p.2))

/-- True exactly for the self-reference back-edge marker. -/
def isSelfRef : RocType → Bool
  | .selfRef => true
  | _ => false

/-- Modelled from the spec: guard for the null-discriminant recursive
representation, a self-recursive tag union with exactly one non-recursive
terminal variant carrying no payload and one or more variants that both
carry a payload and recurse via a self-reference. -/
def isNullPointerShape (vs : List (String × List RocType)) : Bool :=
  decide (2 ≤ vs.length) &&
    (vs.filter (fun v => v.2.isEmpty)).length == 1 &&
    (vs.filter (fun v => !v.2.isEmpty)).all (fun v => v.2.any isSelfRef)

/-- The five representation strategies of the selector. -/
inductive RepStrategy where
  | plainStruct
  | transparentWrapper
  | enumeration
  | taggedUnion
  | nullPointer
deriving DecidableEq

/-- Modelled from the spec: the representation selector for tag unions.  A
union whose variants all carry no payload is a plain enumeration; the
self-recursive null-pointer shape collapses to a single owning pointer; a
single variant with one payload field is a transparent wrapper; a single
variant with several payload fields is a plain struct with positional
slots; otherwise the union is a tagged union with an explicit discriminant
field. -/
def selectUnionStrategy (vs : List (String × List RocType)) : RepStrategy :=
  if vs.all (fun v => v.2.isEmpty) then .enumeration
  else if isNullPointerShape vs then .nullPointer
  else
    match vs with
    | [v] => if v.2.length == 1 then .transparentWrapper else .plainStruct
    | _ => .taggedUnion

/-- Modelled from the spec: the representation selector; records are plain
structs and tag unions are classified by selectUnionStrategy.  Only
composite types receive their own emitted declaration. -/
def selectStrategy : RocType → Option RepStrategy
  | .record _ _ => some .plainStruct
  | .tagUnion _ vs => some (selectUnionStrategy vs)
  | _ => none

/-- Total comparison capability: total equality, total ordering and hashing
are sound only when no reachable slot is a floating-point value. -/
def totalCmpOk (t : RocType) : Bool := !hasFloat t

/-- Trivial bitwise copy capability: sound only when no reachable slot owns
a releasable resource. -/
def copyOk (t : RocType) : Bool := !ownsResource t

/-- Modelled from the spec and pinned by the fixtures: the derive list of a
struct or transparent-wrapper emission, in the order the fixtures show. -/
def deriveListStruct (t : RocType) : List String :=
  ["Clone"] ++ (if copyOk t then ["Copy"] else []) ++ ["Debug", "Default"] ++
    (if totalCmpOk t then ["Eq", "Ord", "Hash"] else []) ++
    ["PartialEq", "PartialOrd"]

/-- Pinned by the fixtures: the derive list of a discriminant enumeration
(payload-free, so it can never reach a float and always derives the total
comparisons; it has no default because variant selection is ambiguous). -/
def deriveListEnum : List String :=
  ["Clone", "Copy", "Debug", "Eq", "Ord", "Hash", "PartialEq", "PartialOrd"]

/-- Pinned by the fixtures: the derive list of the null-discriminant
pointer struct (no Copy because the pointer owns its heap block, no Debug
and no Default in the fixture output). -/
def deriveListNullPtr (t : RocType) : List String :=
  ["Clone"] ++ (if totalCmpOk t then ["Eq", "Ord", "Hash"] else []) ++
    ["PartialEq", "PartialOrd"]

/-- Pinned by the fixtures: the manual impl list of a tagged union with an
explicit discriminant field, in fixture order.  Note that no Hash impl is
ever emitted for this representation. -/
def manualImplsTagged (t : RocType) : List String :=
  ["Drop", "PartialEq"] ++ (if totalCmpOk t then ["Eq"] else []) ++
    ["PartialOrd"] ++ (if totalCmpOk t then ["Ord"] else []) ++
    ["Clone", "Debug"]

/-- An emitted discriminant enumeration: name, derive list, and the
discriminant-to-name mapping. -/
structure EnumEmission where
  name : String
  derives : List String
  tags : List (String × Nat)

/-- An emitted plain struct: name, derive list, and physical field order. -/
structure StructEmission where
  name : String
  derives : List String
  fields : List (String × RocType)

/-- One member of an emitted payload union: the variant name, the
representation type of its payload, and whether the member is wrapped so
that the union's default destruction does not run its destructor. -/
structure UnionMember where
  tagName : String
  payload : RocType
  wrapped : Bool

/-- An emitted tagged union with explicit discriminant field: a struct of a
payload union plus a discriminant enum, with manually implemented
operations. -/
structure TaggedUnionEmission where
  name : String
  tagEnum : EnumEmission
  unionMembers : List UnionMember
  structFields : List String
  manualImpls : List String

/-- An emitted null-discriminant recursive representation: a single owning
pointer struct together with a discriminant enum whose value is computed
from pointer nullity rather than stored. -/
structure NullPointerEmission where
  name : String
  tagEnum : EnumEmission
  derives : List String
  structFields : List String

/-- The declaration emitted for one type. -/
inductive Emission where
  | structE (e : StructEmission)
  | newtypeE (name : String) (derives : List String) (payload : RocType)
  | enumE (e : EnumEmission)
  | taggedE (e : TaggedUnionEmission)
  | nullPtrE (e : NullPointerEmission)

/-- Ordering of variants by name, used to lay the payload-union members
out in alphabetical order as the fixtures show. -/
def nameLE (a b : String × List RocType) : Prop := alphaLE a.1 b.1

instance : DecidableRel nameLE := fun a b => by
  unfold nameLE; infer_instance

/-- Representation type of one variant's payload inside the payload union:
a single payload field is stored directly, several payload fields become a
positional-slot struct laid out by the record rule. -/
def payloadRep (tagName : String) (ps : List RocType) : RocType :=
  match ps with
  | [t] => t
  | ps => .record ("payload_" ++ tagName) (sortSlots (positionalFields ps))

/-- Modelled from the spec: emission of a tagged union with explicit
discriminant field.  Discriminants are assigned by alphabetical rank; the
payload union holds one member per non-empty variant, in alphabetical
order, wrapped exactly when the member's payload owns a releasable
resource; the outer struct holds the payload union then the discriminant. -/
def emitTaggedUnion (name : String) (vs : List (String × List RocType)) :
    TaggedUnionEmission :=
  { name := name
    tagEnum :=
      { name := "tag_" ++ name
        derives := deriveListEnum
        tags := discriminants (vs.map (·.1)) }
    unionMembers :=
      ((vs.filter (fun v => !v.2.isEmpty)).insertionSort nameLE).map
        (fun v =>
          { tagName := v.1
            payload := payloadRep v.1 v.2
            wrapped := ownsResource (payloadRep v.1 v.2) })
    structFields := ["variant", "tag"]
    manualImpls := manualImplsTagged (.tagUnion name vs) }

/-- Modelled from the spec: the code emitter's declaration for one type,
dispatching on the selected representation strategy. -/
def emitType : RocType → Option Emission
  | .record name fs =>
      some (.structE
        { name := name
          derives := deriveListStruct (.record name fs)
          fields := sortSlots fs })
  | .tagUnion name vs =>
      if vs.all (fun v => v.2.isEmpty) then
        some (.enumE
          { name := name
            derives := deriveListEnum
            tags := discriminants (vs.map (·.1)) })
      else if isNullPointerShape vs then
        some (.nullPtrE
          { name := name
            tagEnum :=
              { name := "tag_" ++ name
                derives := deriveListEnum
                tags := discriminants (vs.map (·.1)) }
            derives := deriveListNullPtr (.tagUnion name vs)
            structFields := ["pointer"] })
      else
        match vs with
        | [(_, [t])] =>
            some (.newtypeE name (deriveListStruct (.tagUnion name vs)) t)
        | [(_, ps)] =>
            some (.structE
              { name := name
                derives := deriveListStruct (.tagUnion name vs)
                fields := sortSlots (positionalFields ps) })
        | _ => some (.taggedE (emitTaggedUnion name vs))
  | _ => none

/-- The operation capabilities granted to an emission, whether through a
derive list or through manually implemented operations. -/
def grantedOps : Emission → List String
  | .structE e => e.derives
  | .newtypeE _ ds _ => ds
  | .enumE e => e.derives
  | .taggedE e => e.manualImpls
  | .nullPtrE e => e.derives

/-- The granted capabilities of a type, empty when no declaration is
emitted for it. -/
def grantedOf (t : RocType) : List String :=
  match emitType t with
  | some e => grantedOps e
  | none => []

/-- The Rust surface name of a type, as the fixtures show: scalar names,
the owned handle types roc_std::RocStr and roc_std::RocList, and the
resolved name of a composite. -/
def typeName : RocType → String
  | .u8 => "u8"
  | .u16 => "u16"
  | .u32 => "u32"
  | .u64 => "u64"
  | .u128 => "u128"
  | .i8 => "i8"
  | .i16 => "i16"
  | .i32 => "i32"
  | .i64 => "i64"
  | .i128 => "i128"
  | .f32 => "f32"
  | .f64 => "f64"
  | .bool => "bool"
  | .unit => "()"
  | .str => "roc_std::RocStr"
  | .list e => "roc_std::RocList<" ++ typeName e ++ ">"
  | .record n _ => n
  | .tagUnion n _ => n
  | .selfRef => "Self"

/-- Renders a derive attribute line. -/
def renderDerive (ds : List String) : String :=
  "#[derive(" ++ String.intercalate ", " ds ++ ")]\n"

/-- Renders the field lines of a struct body. -/
def renderFields (fs : List (String × RocType)) : String :=
  String.join (fs.map (fun f => "    " ++ f.1 ++ ": " ++ typeName f.2 ++ ",\n"))

/-- Renders a plain struct declaration. -/
def renderStructE (e : StructEmission) : String :=
  renderDerive e.derives ++ "#[repr(C)]\npub struct " ++ e.name ++ " \x7b\n" ++
    renderFields e.fields ++ "\x7d\n"

/-- Renders a discriminant enumeration declaration. -/
def renderEnumE (e : EnumEmission) : String :=
  renderDerive e.derives ++ "#[repr(u8)]\npub enum " ++ e.name ++ " \x7b\n" ++
    String.join (e.tags.map (fun t => "    " ++ t.1 ++ " = " ++ toString t.2 ++ ",\n")) ++
    "\x7d\n"

/-- Renders a transparent wrapper declaration. -/
def renderNewtype (name : String) (ds : List String) (payload : RocType) : String :=
  renderDerive ds ++ "#[repr(transparent)]\npub struct " ++ name ++ "(" ++
    typeName payload ++ ");\n"

/-- Renders one payload-union member line. -/
def renderUnionMember (m : UnionMember) : String :=
  "    " ++ m.tagName ++ ": " ++
    (if m.wrapped then "core::mem::ManuallyDrop<" ++ typeName m.payload ++ ">"
     else typeName m.payload) ++ ",\n"

/-- Renders a tagged-union emission: discriminant enum, payload union,
outer struct, and the list of manually implemented operations. -/
def renderTaggedE (e : TaggedUnionEmission) : String :=
  renderEnumE e.tagEnum ++ "\n#[repr(C)]\npub union union_" ++ e.name ++ " \x7b\n" ++
    String.join (e.unionMembers.map renderUnionMember) ++ "\x7d\n" ++
    "\n#[repr(C)]\npub struct " ++ e.name ++ " \x7b\n" ++
    String.join (e.structFields.map (fun f => "    " ++ f ++ ",\n")) ++ "\x7d\n" ++
    String.join (e.manualImpls.map (fun i => "impl " ++ i ++ " for " ++ e.name ++ "\n"))

/-- Renders a null-discriminant recursive emission: discriminant enum and
the single owning pointer struct. -/
def renderNullPtrE (e : NullPointerEmission) : String :=
  renderEnumE e.tagEnum ++ "\n" ++ renderDerive e.derives ++
    "#[repr(C)]\npub struct " ++ e.name ++ " \x7b\n" ++
    String.join (e.structFields.map (fun f => "    " ++ f ++ ",\n")) ++ "\x7d\n"

/-- Renders one emitted declaration. -/
def renderEmission : Emission → String
  | .structE e => renderStructE e
  | .newtypeE n ds p => renderNewtype n ds p
  | .enumE e => renderEnumE e
  | .taggedE e => renderTaggedE e
  | .nullPtrE e => renderNullPtrE e

/-- Modelled from the spec: bindgen_rs::write_types, the whole generation
run over the resolved type graph, emitting each named type in
name-resolution order, each declaration preceded by a blank line as the
fixtures show.  The run is a pure function of the input graph. -/
def write_types (graph : List RocType) : String :=
  String.join ((graph.filterMap emitType).map (fun e => "\n" ++ renderEmission e))

/-!
Operational model of the emitted code for the null-discriminant recursive
representation, translated from the expected output of the
cons_list_of_strings fixture (src/bindgen/tests/gen_rs.rs lines 510-619).
The emitted StrConsList struct holds a single nullable owning pointer to a
heap-allocated payload block; a pointer is modelled as an optional block
address and the heap as an association list from addresses to the RocStr
payloads stored in the blocks.
-/

/-- A nullable pointer: none is the null pointer, some a points at heap
block a. -/
abbrev Ptr := Option Nat

/-- The heap of payload blocks reachable by the emitted code. -/
abbrev Heap := List (Nat × String)

/-- Reads the payload block at an address. -/
def heapLookup (h : Heap) (a : Nat) : Option String :=
  (h.find? (fun b => b.1 == a)).map (·.2)

/-- Deallocates the block at an address. -/
def heapRemove (h : Heap) (a : Nat) : Heap :=
  h.filter (fun b => b.1 != a)

/-- Allocates (or overwrites) the block at an address. -/
def heapInsert (h : Heap) (a : Nat) (s : String) : Heap :=
  (a, s) :: heapRemove h a

/-- The two discriminant values of the emitted tag_StrConsList enum. -/
inductive StrConsListTag where
  | Cons
  | Nil
deriving DecidableEq

/-- Translated from the fixture (lines 541-547): the emitted tag operation
computes the discriminant by testing pointer nullity, returning Nil for
the null pointer and Cons otherwise; no stored field is read. -/
def tagStrConsList (p : Ptr) : StrConsListTag :=
  match p with
  | none => .Nil
  | some _ => .Cons

/-- Generic form of the computed discriminant for any null-pointer
representation: the terminal variant's tag for the null pointer, the
recursive variant's tag otherwise. -/
def nullPtrTagInspect {α : Type} (terminalTag recTag : α) (p : Ptr) : α :=
  match p with
  | none => terminalTag
  | some _ => recTag

/-- Translated from the fixture (lines 581-586): the emitted Nil
constructor produces the null pointer. -/
def mkNil : Ptr := none

/-- Translated from the fixture (lines 549-562): the emitted Cons
constructor heap-allocates a payload block (the allocator chooses the
address), writes the payload into it, and returns the non-null pointer. -/
def mkCons (h : Heap) (addr : Nat) (payload : String) : Heap × Ptr :=
  (heapInsert h addr payload, some addr)

/-- Translated from the fixture (lines 575-579): the borrowing accessor
dereferences the pointer without transferring ownership. -/
def asCons (h : Heap) (p : Ptr) : Option String :=
  match p with
  | none => none
  | some a => heapLookup h a

/-- Translated from the fixture (lines 564-573): the consuming accessor
takes the payload out of the block and deallocates the block. -/
def intoCons (h : Heap) (p : Ptr) : Option (String × Heap) :=
  match p with
  | none => none
  | some a => (heapLookup h a).map (fun s => (s, heapRemove h a))

/-- The observable effects a destructor for the pointer representation can
perform: deallocating the heap block, dropping a shared reference (which
runs no destructor), or running the payload value's own destructor (which
the emitted code never does). -/
inductive DropAction where
  | deallocBlock (a : Nat)
  | dropSharedRef
  | runPayloadDestructor (a : Nat)
deriving DecidableEq

/-- Translated from the fixture (lines 601-614): the emitted Drop impl
tests the pointer for null; when it is non-null it takes a shared
reference to the payload, deallocates the block through roc_dealloc, and
then drops only that shared reference, so the payload value's own
destructor is never invoked. -/
def dropStrConsList (h : Heap) (p : Ptr) : Heap × List DropAction :=
  match p with
  | none => (h, [])
  | some a => (heapRemove h a, [.deallocBlock a, .dropSharedRef])

/-- The machine address a pointer compares and hashes as: the null pointer
is address 0 and block a lives at the non-null address a + 1. -/
def ptrAddr : Ptr → Nat
  | none => 0
  | some a => a + 1

/-- Translated from the fixture (line 534): the derived PartialEq of the
pointer struct compares the raw pointer field, that is, the block
addresses. -/
def derivedEqStrConsList (p q : Ptr) : Bool :=
  ptrAddr p == ptrAddr q

/-- Translated from the fixture (line 534): the derived Ord of the pointer
struct compares the raw pointer field, that is, the block addresses. -/
def derivedCmpStrConsList (p q : Ptr) : Ordering :=
  compare (ptrAddr p) (ptrAddr q)

/-- Translated from the fixture (line 534): the derived Hash of the
pointer struct feeds the raw pointer field, that is, the block address,
into the hasher. -/
def derivedHashStrConsList (p : Ptr) : Nat :=
  ptrAddr p

/-- Deep structural equality of two cons-list values: equal discriminants
and, for two non-null pointers, equal pointed-to payload contents. -/
def contentEq (h : Heap) (p q : Ptr) : Bool :=
  match p, q with
  | none, none => true
  | some a, some b =>
    decide (heapLookup h a = heapLookup h b) && (heapLookup h a).isSome
  | _, _ => false

/-- True exactly for a tagged-union emission. -/
def isTaggedE : Emission → Bool
  | .taggedE _ => true
  | _ => false

/-- The MyRcd record of the record_aliased fixture. -/
def myRcdTy : RocType := .record "MyRcd" [("a", .u64), ("b", .u128)]

/-- The Inner record of the nested_record_aliased fixture. -/
def innerTy : RocType := .record "Inner" [("a", .u16), ("b", .f32)]

/-- The Outer record of the nested_record_aliased fixture. -/
def outerTy : RocType := .record "Outer" [("x", innerTy), ("y", .str), ("z", .list .u8)]

/-- The payload-free MyTagUnion of the tag_union_enumeration fixture, in
its declared variant order. -/
def enumFixtureTy : RocType :=
  .tagUnion "MyTagUnion" [("Blah", []), ("Foo", []), ("Bar", [])]

/-- The UserId union of the single_tag_union_with_payloads fixture. -/
def userIdMultiTy : RocType := .tagUnion "UserId" [("Id", [.u32, .str])]

/-- The UserId union of the single_tag_union_with_one_payload_field
fixture. -/
def userIdOneTy : RocType := .tagUnion "UserId" [("Id", [.str])]

/-- The variants of the MyTagUnion of the tag_union_aliased fixture, in
declared order. -/
def myTagUnionVariants : List (String × List RocType) :=
  [("Foo", [.str]), ("Bar", [.u128]), ("Blah", [.i32]), ("Baz", [])]

/-- The MyTagUnion of the tag_union_aliased fixture. -/
def myTagUnionTy : RocType := .tagUnion "MyTagUnion" myTagUnionVariants

/-- The variants of the StrConsList of the cons_list_of_strings fixture,
in declared order. -/
def strConsListVariants : List (String × List RocType) :=
  [("Nil", []), ("Cons", [.str, .selfRef])]

/-- The StrConsList of the cons_list_of_strings fixture. -/
def strConsListTy : RocType := .tagUnion "StrConsList" strConsListVariants

/-- A heap holding two separately allocated blocks with equal payload
contents, at addresses 1 and 2. -/
def demoHeap : Heap := [(1, "Hello, "), (2, "Hello, ")]

/-! Order-theoretic facts about the alphabetical comparison. -/

theorem charListLtb_irrefl : ∀ x, charListLtb x x = false
  | [] => rfl
  | a :: as => by
    rw [charListLtb, if_neg (Nat.lt_irrefl _), if_neg (Nat.lt_irrefl _)]
    exact charListLtb_irrefl as

theorem charListLtb_trichotomy :
    ∀ x y, charListLtb x y = true ∨ x = y ∨ charListLtb y x = true
  | [], [] => Or.inr (Or.inl rfl)
  | [], _ :: _ => Or.inl rfl
  | _ :: _, [] => Or.inr (Or.inr rfl)
  | a :: as, b :: bs => by
    rcases Nat.lt_trichotomy a.toNat b.toNat with h | h | h
    · left
      rw [charListLtb, if_pos h]
    · have hab : a = b := Char.ext (UInt32.toNat.inj h)
      subst hab
      rcases charListLtb_trichotomy as bs with h2 | h2 | h2
      · left
        rw [charListLtb, if_neg (Nat.lt_irrefl _), if_neg (Nat.lt_irrefl _)]
        exact h2
      · right; left
        rw [h2]
      · right; right
        rw [charListLtb, if_neg (Nat.lt_irrefl _), if_neg (Nat.lt_irrefl _)]
        exact h2
    · right; right
      rw [charListLtb, if_pos h]

theorem charListLtb_trans :
    ∀ x y z, charListLtb x y = true → charListLtb y z = true →
      charListLtb x z = true
  | [], y, [] => by
    intro h1 h2
    cases y with
    | nil => exact h2
    | cons b bs => simp [charListLtb] at h2
  | [], _, _ :: _ => by
    intro _ _
    rfl
  | a :: as, y, [] => by
    intro h1 h2
    cases y with
    | nil => simp [charListLtb] at h1
    | cons b bs => simp [charListLtb] at h2
  | a :: as, [], c :: cs => by
    intro h1 _
    simp [charListLtb] at h1
  | a :: as, b :: bs, c :: cs => by
    intro h1 h2
    rw [charListLtb]
    rcases Nat.lt_trichotomy a.toNat b.toNat with hab | hab | hab
    · rcases Nat.lt_trichotomy b.toNat c.toNat with hbc | hbc | hbc
      · rw [if_pos (Nat.lt_trans hab hbc)]
      · rw [if_pos (hbc ▸ hab)]
      · rw [charListLtb, if_neg (by omega), if_pos hbc] at h2
        simp at h2
    · rw [charListLtb, if_neg (by omega), if_neg (by omega)] at h1
      rcases Nat.lt_trichotomy b.toNat c.toNat with hbc | hbc | hbc
      · rw [if_pos (by omega)]
      · rw [charListLtb, if_neg (by omega), if_neg (by omega)] at h2
        rw [if_neg (by omega), if_neg (by omega)]
        exact charListLtb_trans as bs cs h1 h2
      · rw [charListLtb, if_neg (by omega), if_pos hbc] at h2
        simp at h2
    · rw [charListLtb, if_neg (by omega), if_pos hab] at h1
      simp at h1

theorem charListLtb_asymm {x y : List Char} (h : charListLtb x y = true) :
    charListLtb y x = false := by
  by_contra hc
  have h2 : charListLtb y x = true := by
    revert hc
    cases charListLtb y x <;> simp
  have h3 := charListLtb_trans x y x h h2
  rw [charListLtb_irrefl] at h3
  simp at h3

theorem string_eq_of_data {a b : String} (h : a.data = b.data) : a = b := by
  cases a
  cases b
  simp only at h
  subst h
  rfl

theorem charListLtb_eq {x y : List Char} (h1 : charListLtb x y = false)
    (h2 : charListLtb y x = false) : x = y := by
  rcases charListLtb_trichotomy x y with h | h | h
  · rw [h] at h1
    simp at h1
  · exact h
  · rw [h] at h2
    simp at h2

theorem alphaLE_total : ∀ a b : String, alphaLE a b ∨ alphaLE b a := by
  intro a b
  unfold alphaLE alphaLtb
  cases hc : charListLtb b.data a.data with
  | false => exact Or.inl rfl
  | true => exact Or.inr (charListLtb_asymm hc)

theorem alphaLE_trans :
    ∀ {a b c : String}, alphaLE a b → alphaLE b c → alphaLE a c := by
  intro a b c h1 h2
  unfold alphaLE alphaLtb at h1 h2 ⊢
  by_contra hc
  have h3 : charListLtb c.data a.data = true := by
    revert hc
    cases charListLtb c.data a.data <;> simp
  rcases charListLtb_trichotomy a.data b.data with h | h | h
  · have h4 := charListLtb_trans _ _ _ h3 h
    rw [h4] at h2
    simp at h2
  · rw [h] at h3
    rw [h3] at h2
    simp at h2
  · rw [h] at h1
    simp at h1

theorem alphaLE_antisymm :
    ∀ {a b : String}, alphaLE a b → alphaLE b a → a = b := by
  intro a b h1 h2
  exact string_eq_of_data (charListLtb_eq h2 h1)

theorem alphaLT_of_alphaLE_of_ne {a b : String} (h1 : alphaLE a b)
    (h2 : a ≠ b) : alphaLT a b := by
  unfold alphaLE alphaLtb at h1
  unfold alphaLT alphaLtb
  rcases charListLtb_trichotomy a.data b.data with h | h | h
  · exact h
  · exact absurd (string_eq_of_data h) h2
  · rw [h] at h1
    simp at h1

theorem alphaLT_asymm {a b : String} (h : alphaLT a b) : ¬ alphaLT b a := by
  unfold alphaLT alphaLtb at h ⊢
  rw [charListLtb_asymm h]
  simp

theorem alphaLT_irrefl (a : String) : ¬ alphaLT a a := by
  unfold alphaLT alphaLtb
  rw [charListLtb_irrefl]
  simp

/-! Facts about the alphabetical name sort and the rank mapping. -/

theorem sortNames_sorted (names : List String) :
    (sortNames names).Sorted alphaLE := by
  haveI : IsTotal String alphaLE := ⟨alphaLE_total⟩
  haveI : IsTrans String alphaLE := ⟨fun _ _ _ => alphaLE_trans⟩
  exact List.sorted_insertionSort alphaLE names

theorem sortNames_perm (names : List String) :
    List.Perm (sortNames names) names :=
  List.perm_insertionSort alphaLE names

theorem sortNames_eq_of_perm {l1 l2 : List String} (h : List.Perm l1 l2) :
    sortNames l1 = sortNames l2 := by
  haveI : IsAntisymm String alphaLE := ⟨fun _ _ => alphaLE_antisymm⟩
  exact List.eq_of_perm_of_sorted
    (((sortNames_perm l1).trans h).trans (sortNames_perm l2).symm)
    (sortNames_sorted l1) (sortNames_sorted l2)

theorem sortNames_sorted_lt (names : List String) (h : names.Nodup) :
    (sortNames names).Sorted alphaLT := by
  have hs := sortNames_sorted names
  have hnd : (sortNames names).Nodup := ((sortNames_perm names).nodup_iff).mpr h
  exact (hs.and hnd).imp fun {a b} hab => alphaLT_of_alphaLE_of_ne hab.1 hab.2

theorem lookup_withRanks :
    ∀ (l : List String), l.Sorted alphaLT →
      ∀ (k : Nat) (n : String), n ∈ l →
        List.lookup n (withRanks k l) =
          some (k + (l.filter (fun m => alphaLtb m n)).length)
  | [], _, _, _, hn => absurd hn (List.not_mem_nil _)
  | a :: t, hl, k, n, hn => by
    rw [withRanks]
    by_cases hna : n = a
    · subst hna
      have hfil : (n :: t).filter (fun m => alphaLtb m n) = [] := by
        apply List.filter_eq_nil_iff.mpr
        intro m hm
        rcases List.mem_cons.mp hm with rfl | hm2
        · have h1 := alphaLT_irrefl m
          unfold alphaLT at h1
          exact h1
        · have h1 : alphaLT n m := List.rel_of_sorted_cons hl m hm2
          have h2 := alphaLT_asymm h1
          unfold alphaLT at h2
          exact h2
      rw [hfil]
      simp [List.lookup]
    · have hnt : n ∈ t := by
        rcases List.mem_cons.mp hn with rfl | h2
        · exact absurd rfl hna
        · exact h2
      have ha_lt : alphaLT a n := List.rel_of_sorted_cons hl n hnt
      have ih := lookup_withRanks t hl.of_cons (k + 1) n hnt
      have hne : (n == a) = false := by simpa using hna
      rw [List.lookup, hne]
      rw [ih]
      have hfc : (a :: t).filter (fun m => alphaLtb m n) =
          a :: t.filter (fun m => alphaLtb m n) :=
        List.filter_cons_of_pos ha_lt
      rw [hfc]
      simp only [List.length_cons, Option.some.injEq]
      omega

theorem lookup_discriminants (names : List String) (h : names.Nodup)
    (n : String) (hn : n ∈ names) :
    List.lookup n (discriminants names) =
      some ((names.filter (fun m => alphaLtb m n)).length) := by
  have hperm := sortNames_perm names
  have hsorted := sortNames_sorted_lt names h
  have hmem : n ∈ sortNames names := (hperm.mem_iff).mpr hn
  have h0 := lookup_withRanks (sortNames names) hsorted 0 n hmem
  rw [discriminants, h0]
  have hf := hperm.filter (fun m => alphaLtb m n)
  rw [hf.length_eq]
  simp

/-! Facts about the size-sorted slot layout. -/

theorem sortSlots_perm (fields : List (String × RocType)) :
    List.Perm (sortSlots fields) fields := by
  have h2 := (List.perm_insertionSort slotKeyLE fields.enum).map Prod.snd
  rw [List.enum_map_snd] at h2
  exact h2

theorem sortSlots_sorted (fields : List (String × RocType)) :
    (fields.enum.insertionSort slotKeyLE).Pairwise
      (fun a b => typeSize b.2.2 < typeSize a.2.2 ∨
        (typeSize a.2.2 = typeSize b.2.2 ∧ a.1 < b.1)) := by
  have hs : (fields.enum.insertionSort slotKeyLE).Pairwise slotKeyLE :=
    List.sorted_insertionSort slotKeyLE fields.enum
  have hperm := List.perm_insertionSort slotKeyLE fields.enum
  have h0 : (fields.enum.map Prod.fst).Nodup := List.nodup_enum_map_fst _
  have hnd : ((fields.enum.insertionSort slotKeyLE).map Prod.fst).Nodup :=
    ((hperm.map Prod.fst).nodup_iff).mpr h0
  have hne : (fields.enum.insertionSort slotKeyLE).Pairwise
      (fun a b => a.1 ≠ b.1) := List.pairwise_map.mp hnd
  exact (hs.and hne).imp fun {a b} hab => by
    rcases hab.1 with h | h
    · exact Or.inl h
    · exact Or.inr ⟨h.1, lt_of_le_of_ne h.2 hab.2⟩

/-! Reduction lemmas for the emitter and capability lists. -/

theorem variantsHaveFloat_of_all_empty :
    ∀ (vs : List (String × List RocType)),
      vs.all (fun v => v.2.isEmpty) = true → variantsHaveFloat vs = false
  | [], _ => rfl
  | v :: rest, h => by
    rw [List.all_cons, Bool.and_eq_true] at h
    obtain ⟨h1, h2⟩ := h
    have hv : v.2 = [] := List.isEmpty_iff.mp h1
    rw [variantsHaveFloat, hv]
    simp [payloadHasFloat, variantsHaveFloat_of_all_empty rest h2]

theorem hasFloat_of_all_empty (name : String) (vs : List (String × List RocType))
    (h : vs.all (fun v => v.2.isEmpty) = true) :
    hasFloat (.tagUnion name vs) = false := by
  rw [hasFloat]
  exact variantsHaveFloat_of_all_empty vs h

theorem eq_mem_deriveListStruct (t : RocType) :
    ("Eq" ∈ deriveListStruct t) ↔ totalCmpOk t = true := by
  cases h1 : copyOk t <;> cases h2 : totalCmpOk t <;>
    simp [deriveListStruct, h1, h2]

theorem ord_mem_deriveListStruct (t : RocType) :
    ("Ord" ∈ deriveListStruct t) ↔ totalCmpOk t = true := by
  cases h1 : copyOk t <;> cases h2 : totalCmpOk t <;>
    simp [deriveListStruct, h1, h2]

theorem hash_mem_deriveListStruct (t : RocType) :
    ("Hash" ∈ deriveListStruct t) ↔ totalCmpOk t = true := by
  cases h1 : copyOk t <;> cases h2 : totalCmpOk t <;>
    simp [deriveListStruct, h1, h2]

theorem eq_mem_deriveListNullPtr (t : RocType) :
    ("Eq" ∈ deriveListNullPtr t) ↔ totalCmpOk t = true := by
  cases h2 : totalCmpOk t <;> simp [deriveListNullPtr, h2]

theorem ord_mem_deriveListNullPtr (t : RocType) :
    ("Ord" ∈ deriveListNullPtr t) ↔ totalCmpOk t = true := by
  cases h2 : totalCmpOk t <;> simp [deriveListNullPtr, h2]

theorem hash_mem_deriveListNullPtr (t : RocType) :
    ("Hash" ∈ deriveListNullPtr t) ↔ totalCmpOk t = true := by
  cases h2 : totalCmpOk t <;> simp [deriveListNullPtr, h2]

theorem eq_mem_manualImplsTagged (t : RocType) :
    ("Eq" ∈ manualImplsTagged t) ↔ totalCmpOk t = true := by
  cases h2 : totalCmpOk t <;> simp [manualImplsTagged, h2]

theorem ord_mem_manualImplsTagged (t : RocType) :
    ("Ord" ∈ manualImplsTagged t) ↔ totalCmpOk t = true := by
  cases h2 : totalCmpOk t <;> simp [manualImplsTagged, h2]

theorem hash_not_mem_manualImplsTagged (t : RocType) :
    "Hash" ∉ manualImplsTagged t := by
  cases h2 : totalCmpOk t <;> simp [manualImplsTagged, h2]

theorem totalCmpOk_iff (t : RocType) :
    totalCmpOk t = true ↔ hasFloat t = false := by
  rw [totalCmpOk]
  cases hasFloat t <;> simp

theorem emitType_enum (name : String) (vs : List (String × List RocType))
    (hall : vs.all (fun v => v.2.isEmpty) = true) :
    emitType (.tagUnion name vs) =
      some (.enumE { name := name, derives := deriveListEnum,
                     tags := discriminants (vs.map (·.1)) }) := by
  simp [emitType, hall]

theorem emitType_nullPtr (name : String) (vs : List (String × List RocType))
    (hall : vs.all (fun v => v.2.isEmpty) = false)
    (hnnp : isNullPointerShape vs = true) :
    emitType (.tagUnion name vs) =
      some (.nullPtrE
        { name := name
          tagEnum :=
            { name := "tag_" ++ name
              derives := deriveListEnum
              tags := discriminants (vs.map (·.1)) }
          derives := deriveListNullPtr (.tagUnion name vs)
          structFields := ["pointer"] }) := by
  simp [emitType, hall, hnnp]

theorem emitType_taggedUnion (name : String) (vs : List (String × List RocType))
    (hall : vs.all (fun v => v.2.isEmpty) = false)
    (hnnp : isNullPointerShape vs = false) (hlen : 2 ≤ vs.length) :
    emitType (.tagUnion name vs) = some (.taggedE (emitTaggedUnion name vs)) := by
  rcases vs with _ | ⟨a, _ | ⟨b, r⟩⟩
  · simp at hlen
  · simp at hlen
  · simp [emitType, hall, hnnp]

/-! Claim theorems. -/

/-- C2: for every tag union in which no variant carries a payload, the
emission is a discriminant enumeration in which the discriminant value of
each variant equals the alphabetical rank of its variant name starting at
0 (the number of variant names alphabetically smaller than it), and
permuting the declaration order of the variants (without changing the set
of names) never changes the emitted discriminant-to-name mapping. -/
theorem C2_enumeration_discriminants (name : String)
    (vs : List (String × List RocType))
    (hall : vs.all (fun v => v.2.isEmpty) = true)
    (hnd : (vs.map (·.1)).Nodup) :
    emitType (.tagUnion name vs) =
        some (.enumE { name := name, derives := deriveListEnum,
                       tags := discriminants (vs.map (·.1)) }) ∧
    (∀ n ∈ vs.map (·.1),
        List.lookup n (discriminants (vs.map (·.1))) =
          some (((vs.map (·.1)).filter (fun m => alphaLtb m n)).length)) ∧
    (∀ vs2 : List (String × List RocType),
        List.Perm (vs.map (·.1)) (vs2.map (·.1)) →
        discriminants (vs.map (·.1)) = discriminants (vs2.map (·.1))) := by
  refine ⟨emitType_enum name vs hall, ?_, ?_⟩
  · exact fun n hn => lookup_discriminants _ hnd n hn
  · intro vs2 hperm
    rw [discriminants, discriminants, sortNames_eq_of_perm hperm]

/-- C2 witness: the tag_union_enumeration fixture, variants declared
Blah, Foo, Bar; the mapping is Bar = 0, Blah = 1, Foo = 2, the rank of Foo
counts the two smaller names, and the reordered declaration Bar, Blah,
Foo yields the same mapping. -/
theorem C2_enumeration_discriminants_witness :
    discriminants ["Blah", "Foo", "Bar"] = [("Bar", 0), ("Blah", 1), ("Foo", 2)] ∧
    (List.lookup "Foo" (discriminants ["Blah", "Foo", "Bar"]) =
      some ((["Blah", "Foo", "Bar"].filter (fun m => alphaLtb m "Foo")).length)) ∧
    discriminants ["Blah", "Foo", "Bar"] = discriminants ["Bar", "Blah", "Foo"] := by
  refine ⟨by rfl, ?_, ?_⟩
  · exact (C2_enumeration_discriminants "MyTagUnion"
      [("Blah", []), ("Foo", []), ("Bar", [])] (by rfl) (by decide)).2.1 "Foo" (by decide)
  · exact (C2_enumeration_discriminants "MyTagUnion"
      [("Blah", []), ("Foo", []), ("Bar", [])] (by rfl) (by decide)).2.2
      [("Bar", []), ("Blah", []), ("Foo", [])] (by decide)

/-- C3: for every record with two or more fields, the emitted declaration
is a struct whose field list is the size-sorted slot list: a permutation
of the declared fields whose index-decorated form is pairwise ordered by
strictly descending physical size, ties broken by ascending declaration
index. -/
theorem C3_record_field_order (name : String)
    (fields : List (String × RocType)) (_hlen : 2 ≤ fields.length) :
    emitType (.record name fields) =
      some (.structE
        { name := name
          derives := deriveListStruct (.record name fields)
          fields := sortSlots fields }) ∧
    List.Perm (sortSlots fields) fields ∧
    (fields.enum.insertionSort slotKeyLE).Pairwise
      (fun a b => typeSize b.2.2 < typeSize a.2.2 ∨
        (typeSize a.2.2 = typeSize b.2.2 ∧ a.1 < b.1)) :=
  ⟨rfl, sortSlots_perm fields, sortSlots_sorted fields⟩

/-- C3 witness: the record_aliased fixture (a : U64, b : U128) has two
fields and its emitted order puts the 16-byte field b before the 8-byte
field a. -/
theorem C3_record_field_order_witness :
    2 ≤ ([("a", RocType.u64), ("b", RocType.u128)] : List (String × RocType)).length ∧
    List.Perm (sortSlots [("a", RocType.u64), ("b", RocType.u128)])
      [("a", RocType.u64), ("b", RocType.u128)] ∧
    sortSlots [("a", RocType.u64), ("b", RocType.u128)] =
      [("b", RocType.u128), ("a", RocType.u64)] :=
  ⟨by decide, (C3_record_field_order "MyRcd" _ (by decide)).2.1, by rfl⟩

/-- C6: for every tag union with exactly one variant carrying two or more
payload fields, the selector chooses the plain-struct strategy and the
emitted struct renames the payload slots positionally (f0, f1, ...) and
orders them with the same size-sort the record rule uses. -/
theorem C6_single_variant_multi_payload (name tagName : String)
    (ps : List RocType) (hlen : 2 ≤ ps.length) :
    selectUnionStrategy [(tagName, ps)] = .plainStruct ∧
    emitType (.tagUnion name [(tagName, ps)]) =
      some (.structE
        { name := name
          derives := deriveListStruct (.tagUnion name [(tagName, ps)])
          fields := sortSlots (positionalFields ps) }) ∧
    ((positionalFields ps).map Prod.fst =
      (List.range ps.length).map (fun i => "f" ++ toString i)) ∧
    List.Perm (sortSlots (positionalFields ps)) (positionalFields ps) ∧
    ((positionalFields ps).enum.insertionSort slotKeyLE).Pairwise
      (fun a b => typeSize b.2.2 < typeSize a.2.2 ∨
        (typeSize a.2.2 = typeSize b.2.2 ∧ a.1 < b.1)) := by
  obtain ⟨p1, p2, ps2, rfl⟩ : ∃ p1 p2 ps2, ps = p1 :: p2 :: ps2 := by
    rcases ps with _ | ⟨p1, _ | ⟨p2, ps2⟩⟩
    · simp at hlen
    · simp at hlen
    · exact ⟨p1, p2, ps2, rfl⟩
  refine ⟨rfl, rfl, ?_, sortSlots_perm _, sortSlots_sorted _⟩
  rw [positionalFields, List.map_map]
  have hcomp : (Prod.fst ∘ fun p : Nat × RocType => ("f" ++ toString p.1, p.2)) =
      (fun i => "f" ++ toString i) ∘ Prod.fst := rfl
  rw [hcomp, ← List.map_map, List.enum_map_fst]

/-- C6 witness: the single_tag_union_with_payloads fixture Id U32 Str: the
emitted struct lists the 24-byte string handle slot f1 before the 4-byte
slot f0. -/
theorem C6_single_variant_multi_payload_witness :
    2 ≤ ([RocType.u32, RocType.str] : List RocType).length ∧
    selectUnionStrategy [("Id", [RocType.u32, RocType.str])] = .plainStruct ∧
    sortSlots (positionalFields [RocType.u32, RocType.str]) =
      [("f1", RocType.str), ("f0", RocType.u32)] :=
  ⟨by decide, (C6_single_variant_multi_payload "UserId" "Id" _ (by decide)).1, by rfl⟩

/-- C7: for every tag union with exactly one variant carrying exactly one
payload field, the selector chooses the transparent wrapper and the
emission is a one-field newtype holding the payload type, with no
discriminant and no field name. -/
theorem C7_single_variant_single_payload (name tagName : String) (t : RocType) :
    selectUnionStrategy [(tagName, [t])] = .transparentWrapper ∧
    emitType (.tagUnion name [(tagName, [t])]) =
      some (.newtypeE name (deriveListStruct (.tagUnion name [(tagName, [t])])) t) :=
  ⟨rfl, rfl⟩

/-- C9: generation is a pure function of the resolved input type graph;
two runs over identical graphs produce byte-identical output text. -/
theorem C9_generation_deterministic (g1 g2 : List RocType) (h : g1 = g2) :
    write_types g1 = write_types g2 := by
  rw [h]

/-- C9 witness: two generation runs over the record_aliased fixture graph
produce the same text. -/
theorem C9_generation_deterministic_witness :
    write_types [myRcdTy] = write_types [myRcdTy] :=
  C9_generation_deterministic [myRcdTy] [myRcdTy] rfl

/-- C10: the emitted destructor of the null-discriminant representation
does nothing for the null pointer, and for a non-null pointer deallocates
the heap block through the external deallocate capability and drops only a
shared reference: the payload value's own destructor is never invoked, so
resources owned by the payload itself are not released. -/
theorem C10_drop_behavior (h : Heap) (a : Nat) :
    dropStrConsList h none = (h, []) ∧
    (dropStrConsList h (some a)).1 = heapRemove h a ∧
    DropAction.deallocBlock a ∈ (dropStrConsList h (some a)).2 ∧
    DropAction.dropSharedRef ∈ (dropStrConsList h (some a)).2 ∧
    (∀ x : Nat, DropAction.runPayloadDestructor x ∉ (dropStrConsList h (some a)).2) := by
  refine ⟨rfl, rfl, ?_, ?_, ?_⟩
  · simp [dropStrConsList]
  · simp [dropStrConsList]
  · intro x
    simp [dropStrConsList]

/-- C5: for every self-recursive tag union with exactly one payload-free
terminal variant and one payload-carrying recursive variant (in either
declaration order), the selector chooses the null-pointer representation;
the emitted layout is a single owning pointer field with no discriminant
field; the discriminant inspection returns the terminal tag exactly for
the null pointer; the terminal constructor produces the null pointer and
the recursive constructor produces a non-null pointer to a heap block
holding the payload. -/
theorem C5_null_pointer_representation (name tn rn : String)
    (ps : List RocType) (vs : List (String × List RocType))
    (horder : vs = [(tn, []), (rn, ps)] ∨ vs = [(rn, ps), (tn, [])])
    (hne : ps ≠ []) (hrec : ps.any isSelfRef = true) (hdist : tn ≠ rn) :
    selectUnionStrategy vs = .nullPointer ∧
    emitType (.tagUnion name vs) =
      some (.nullPtrE
        { name := name
          tagEnum :=
            { name := "tag_" ++ name
              derives := deriveListEnum
              tags := discriminants (vs.map (·.1)) }
          derives := deriveListNullPtr (.tagUnion name vs)
          structFields := ["pointer"] }) ∧
    (∀ p : Ptr, nullPtrTagInspect tn rn p = tn ↔ p = none) ∧
    mkNil = none ∧
    (∀ (h : Heap) (a : Nat) (s : String),
      (mkCons h a s).2 = some a ∧ (mkCons h a s).2 ≠ none ∧
        heapLookup (mkCons h a s).1 a = some s) := by
  have hpe : ps.isEmpty = false := by
    cases ps
    · exact absurd rfl hne
    · rfl
  have hall : vs.all (fun v => v.2.isEmpty) = false := by
    rcases horder with rfl | rfl <;> simp [hpe]
  have hnp : isNullPointerShape vs = true := by
    rcases horder with rfl | rfl <;> simp [isNullPointerShape, hpe, hrec]
  refine ⟨?_, emitType_nullPtr name vs hall hnp, ?_, rfl, ?_⟩
  · rcases horder with rfl | rfl <;>
      simp [selectUnionStrategy, isNullPointerShape, hpe, hrec]
  · intro p
    cases p with
    | none => simp [nullPtrTagInspect]
    | some a =>
      simp only [nullPtrTagInspect]
      constructor
      · intro h2
        exact absurd h2.symm hdist
      · intro h2
        exact absurd h2 (by simp)
  · intro h a s
    refine ⟨rfl, by simp [mkCons], ?_⟩
    simp [mkCons, heapInsert, heapLookup]

/-- C5 witness: the cons_list_of_strings fixture StrConsList with
terminal variant Nil and recursive variant Cons Str StrConsList; the
selector picks the null-pointer strategy, the emitted tag operation maps
the null pointer to Nil and non-null pointers to Cons, and the computed
discriminant mapping is Cons = 0, Nil = 1. -/
theorem C5_null_pointer_representation_witness :
    selectUnionStrategy strConsListVariants = .nullPointer ∧
    (nullPtrTagInspect "Nil" "Cons" none = "Nil" ↔ (none : Ptr) = none) ∧
    tagStrConsList none = .Nil ∧
    tagStrConsList (some 0) = .Cons ∧
    discriminants (strConsListVariants.map (·.1)) = [("Cons", 0), ("Nil", 1)] := by
  have h := C5_null_pointer_representation "StrConsList" "Nil" "Cons"
    [RocType.str, RocType.selfRef] strConsListVariants (Or.inl rfl)
    (by simp) (by rfl) (by decide)
  exact ⟨h.1, h.2.2.1 none, rfl, rfl, by rfl⟩

/-- C4 counterexample: the self-recursive StrConsList union of the
cons_list_of_strings fixture has two variants of which one carries a
payload, yet its emission is the null-pointer representation, not a
struct of a payload union plus a discriminant enum. -/
theorem C4_counterexample :
    2 ≤ strConsListVariants.length ∧
    strConsListVariants.any (fun v => !v.2.isEmpty) = true ∧
    selectUnionStrategy strConsListVariants ≠ .taggedUnion ∧
    (emitType strConsListTy).map isTaggedE = some false := by
  decide

/-- C4 (amended): for every tag union with two or more variants of which
at least one carries a payload, and which is not of the self-recursive
null-pointer shape, the emission is a struct of a payload union plus a
discriminant enum whose values are the alphabetical ranks of the variant
names; every variant with no payload contributes no member to the payload
union, and every payload-union member is wrapped exactly when its type
owns a releasable resource. -/
theorem C4_tagged_union_emission (name : String)
    (vs : List (String × List RocType)) (hlen : 2 ≤ vs.length)
    (hpay : ∃ v ∈ vs, v.2.isEmpty = false)
    (hnnp : isNullPointerShape vs = false)
    (hnd : (vs.map (·.1)).Nodup) :
    emitType (.tagUnion name vs) = some (.taggedE (emitTaggedUnion name vs)) ∧
    (emitTaggedUnion name vs).structFields = ["variant", "tag"] ∧
    (emitTaggedUnion name vs).tagEnum.tags = discriminants (vs.map (·.1)) ∧
    (∀ n ∈ vs.map (·.1),
      List.lookup n (emitTaggedUnion name vs).tagEnum.tags =
        some (((vs.map (·.1)).filter (fun m => alphaLtb m n)).length)) ∧
    List.Perm ((emitTaggedUnion name vs).unionMembers.map (fun m => m.tagName))
      ((vs.filter (fun v => !v.2.isEmpty)).map (·.1)) ∧
    (∀ v ∈ vs, v.2 = [] →
      v.1 ∉ (emitTaggedUnion name vs).unionMembers.map (fun m => m.tagName)) ∧
    (∀ m ∈ (emitTaggedUnion name vs).unionMembers,
      m.wrapped = ownsResource m.payload) := by
  have hall : vs.all (fun v => v.2.isEmpty) = false := by
    obtain ⟨v, hv, hve⟩ := hpay
    cases hq : vs.all (fun v => v.2.isEmpty)
    · rfl
    · have h2 := (List.all_eq_true.mp hq) v hv
      rw [hve] at h2
      exact absurd h2 (by simp)
  have hmm : (emitTaggedUnion name vs).unionMembers.map (fun m => m.tagName) =
      ((vs.filter (fun v => !v.2.isEmpty)).insertionSort nameLE).map (·.1) := by
    simp [emitTaggedUnion, List.map_map]
  refine ⟨emitType_taggedUnion name vs hall hnnp hlen, rfl, rfl, ?_, ?_, ?_, ?_⟩
  · intro n hn
    exact lookup_discriminants _ hnd n hn
  · rw [hmm]
    exact (List.perm_insertionSort nameLE _).map _
  · intro v hv hve
    rw [hmm]
    intro hmem
    have hmem2 : v.1 ∈ (vs.filter (fun v => !v.2.isEmpty)).map (·.1) :=
      ((List.perm_insertionSort nameLE
        (vs.filter (fun v => !v.2.isEmpty))).map (·.1)).mem_iff.mp hmem
    obtain ⟨w, hw, hw1⟩ := List.mem_map.mp hmem2
    have hwvs : w ∈ vs := (List.mem_filter.mp hw).1
    have hwne : (!w.2.isEmpty) = true := (List.mem_filter.mp hw).2
    have hweq : w = v := List.inj_on_of_nodup_map hnd hwvs hv hw1
    subst hweq
    rw [hve] at hwne
    simp at hwne
  · intro m hm
    simp only [emitTaggedUnion] at hm
    obtain ⟨v, _, rfl⟩ := List.mem_map.mp hm
    rfl

/-- C4 witness: the tag_union_aliased fixture MyTagUnion with variants
Foo Str, Bar U128, Blah I32, Baz: the tag enum is Bar = 0, Baz = 1,
Blah = 2, Foo = 3, the payload union holds members Bar, Blah, Foo in
alphabetical order (payload-free Baz contributes none), and only the
resource-owning Foo member is wrapped. -/
theorem C4_tagged_union_emission_witness :
    (emitTaggedUnion "MyTagUnion" myTagUnionVariants).tagEnum.tags =
      [("Bar", 0), ("Baz", 1), ("Blah", 2), ("Foo", 3)] ∧
    (emitTaggedUnion "MyTagUnion" myTagUnionVariants).unionMembers.map
      (fun m => m.tagName) = ["Bar", "Blah", "Foo"] ∧
    (emitTaggedUnion "MyTagUnion" myTagUnionVariants).unionMembers.map
      (fun m => m.wrapped) = [false, false, true] ∧
    (emitTaggedUnion "MyTagUnion" myTagUnionVariants).structFields =
      ["variant", "tag"] :=
  ⟨by rfl, by rfl, by rfl,
    (C4_tagged_union_emission "MyTagUnion" myTagUnionVariants (by decide)
      (by decide) (by rfl) (by decide)).2.1⟩

/-- C8 counterexample: the tag_union_aliased fixture MyTagUnion reaches
no floating-point field, yet its emission carries no hashing operation:
total equality and ordering are granted but hashing is not, refuting the
claimed equivalence. -/
theorem C8_counterexample :
    hasFloat myTagUnionTy = false ∧
    "Hash" ∉ grantedOf myTagUnionTy ∧
    "Eq" ∈ grantedOf myTagUnionTy ∧
    "Ord" ∈ grantedOf myTagUnionTy := by
  decide

/-- C8 (amended): for every emitted type, total equality and total
ordering are granted exactly when no reachable field is a floating-point
value, and hashing is granted only when no reachable field is a
floating-point value (tag unions emitted as payload union plus
discriminant struct receive no hashing even when float-free); hence any
type with a reachable float has at most partial equality and ordering and
no hashing. -/
theorem C8_capability_analysis (t : RocType)
    (hemit : (emitType t).isSome = true) :
    (("Eq" ∈ grantedOf t) ↔ hasFloat t = false) ∧
    (("Ord" ∈ grantedOf t) ↔ hasFloat t = false) ∧
    (("Hash" ∈ grantedOf t) → hasFloat t = false) := by
  cases t
  case record name fs =>
    have hg : grantedOf (.record name fs) = deriveListStruct (.record name fs) := rfl
    rw [hg, ← totalCmpOk_iff]
    exact ⟨eq_mem_deriveListStruct _, ord_mem_deriveListStruct _,
      fun h => (hash_mem_deriveListStruct _).mp h⟩
  case tagUnion name vs =>
    cases hall : vs.all (fun v => v.2.isEmpty) with
    | true =>
      have hg : grantedOf (.tagUnion name vs) = deriveListEnum := by
        rw [grantedOf, emitType_enum name vs hall]
        rfl
      have hnf := hasFloat_of_all_empty name vs hall
      rw [hg, hnf]
      refine ⟨?_, ?_, ?_⟩ <;> simp [deriveListEnum]
    | false =>
      cases hnp : isNullPointerShape vs with
      | true =>
        have hg : grantedOf (.tagUnion name vs) =
            deriveListNullPtr (.tagUnion name vs) := by
          rw [grantedOf, emitType_nullPtr name vs hall hnp]
          rfl
        rw [hg, ← totalCmpOk_iff]
        exact ⟨eq_mem_deriveListNullPtr _, ord_mem_deriveListNullPtr _,
          fun h => (hash_mem_deriveListNullPtr _).mp h⟩
      | false =>
        rcases vs with _ | ⟨a, _ | ⟨b, r⟩⟩
        · simp at hall
        · rcases a with ⟨tag0, _ | ⟨t1, _ | ⟨t2, ts⟩⟩⟩
          · simp at hall
          · have hg : grantedOf (.tagUnion name [(tag0, [t1])]) =
                deriveListStruct (.tagUnion name [(tag0, [t1])]) := rfl
            rw [hg, ← totalCmpOk_iff]
            exact ⟨eq_mem_deriveListStruct _, ord_mem_deriveListStruct _,
              fun h => (hash_mem_deriveListStruct _).mp h⟩
          · have hg : grantedOf (.tagUnion name [(tag0, t1 :: t2 :: ts)]) =
                deriveListStruct (.tagUnion name [(tag0, t1 :: t2 :: ts)]) := rfl
            rw [hg, ← totalCmpOk_iff]
            exact ⟨eq_mem_deriveListStruct _, ord_mem_deriveListStruct _,
              fun h => (hash_mem_deriveListStruct _).mp h⟩
        · have hg : grantedOf (.tagUnion name (a :: b :: r)) =
              manualImplsTagged (.tagUnion name (a :: b :: r)) := by
            rw [grantedOf, emitType_taggedUnion name _ hall hnp (by simp)]
            rfl
          rw [hg, ← totalCmpOk_iff]
          exact ⟨eq_mem_manualImplsTagged _, ord_mem_manualImplsTagged _,
            fun h => absurd h (hash_not_mem_manualImplsTagged _)⟩
  all_goals exact absurd hemit (by simp [emitType])

/-- C8 witness: the Inner record of the nested_record_aliased fixture
reaches the float field b : F32, so its emission lacks total equality,
ordering and hashing. -/
theorem C8_capability_analysis_witness :
    (emitType innerTy).isSome = true ∧
    ((("Eq" ∈ grantedOf innerTy) ↔ hasFloat innerTy = false) ∧
     (("Ord" ∈ grantedOf innerTy) ↔ hasFloat innerTy = false) ∧
     (("Hash" ∈ grantedOf innerTy) → hasFloat innerTy = false)) ∧
    hasFloat innerTy = true ∧
    "Hash" ∉ grantedOf innerTy :=
  ⟨rfl, C8_capability_analysis innerTy rfl, rfl, by decide⟩

/-- C1: the cons_list_of_strings fixture derives equality, ordering and
hashing directly over the pointer-holding StrConsList struct.  At a heap
holding two separately allocated blocks with identical payload contents,
the emitted discriminants and payloads agree, yet the derived equality is
false, the derived ordering is strict, and the derived hashes differ,
because the derived operations compare the raw block addresses; the
capabilities are granted, not withheld. -/
theorem C1_shallow_pointer_comparison :
    tagStrConsList (some 1) = tagStrConsList (some 2) ∧
    asCons demoHeap (some 1) = asCons demoHeap (some 2) ∧
    contentEq demoHeap (some 1) (some 2) = true ∧
    derivedEqStrConsList (some 1) (some 2) = false ∧
    derivedCmpStrConsList (some 1) (some 2) = Ordering.lt ∧
    derivedHashStrConsList (some 1) ≠ derivedHashStrConsList (some 2) ∧
    "Eq" ∈ grantedOf strConsListTy ∧
    "Ord" ∈ grantedOf strConsListTy ∧
    "Hash" ∈ grantedOf strConsListTy := by
  decide

/-!
Fixture pinning: the rendered declarations of the modelled generator
reproduce, byte for byte, the expected outputs asserted by the tests in
src/bindgen/tests/gen_rs.rs (up to the leading newline the test strips).
-/

theorem fixture_record_aliased :
    write_types [myRcdTy] =
      "\n#[derive(Clone, Copy, Debug, Default, Eq, Ord, Hash, PartialEq, PartialOrd)]\n#[repr(C)]\npub struct MyRcd \x7b\n    b: u128,\n    a: u64,\n\x7d\n" := by
  rfl

set_option maxRecDepth 8192 in
theorem fixture_nested_record_aliased :
    write_types [outerTy, innerTy] =
      "\n#[derive(Clone, Debug, Default, PartialEq, PartialOrd)]\n#[repr(C)]\npub struct Outer \x7b\n    y: roc_std::RocStr,\n    z: roc_std::RocList<u8>,\n    x: Inner,\n\x7d\n\n#[derive(Clone, Copy, Debug, Default, PartialEq, PartialOrd)]\n#[repr(C)]\npub struct Inner \x7b\n    b: f32,\n    a: u16,\n\x7d\n" := by
  rfl

theorem fixture_tag_union_enumeration :
    write_types [enumFixtureTy] =
      "\n#[derive(Clone, Copy, Debug, Eq, Ord, Hash, PartialEq, PartialOrd)]\n#[repr(u8)]\npub enum MyTagUnion \x7b\n    Bar = 0,\n    Blah = 1,\n    Foo = 2,\n\x7d\n" := by
  rfl

theorem fixture_single_tag_union_with_payloads :
    write_types [userIdMultiTy] =
      "\n#[derive(Clone, Debug, Default, Eq, Ord, Hash, PartialEq, PartialOrd)]\n#[repr(C)]\npub struct UserId \x7b\n    f1: roc_std::RocStr,\n    f0: u32,\n\x7d\n" := by
  rfl

theorem fixture_single_tag_union_with_one_payload_field :
    write_types [userIdOneTy] =
      "\n#[derive(Clone, Debug, Default, Eq, Ord, Hash, PartialEq, PartialOrd)]\n#[repr(transparent)]\npub struct UserId(roc_std::RocStr);\n" := by
  rfl

theorem fixture_tag_union_aliased_structure :
    emitType myTagUnionTy = some (.taggedE (emitTaggedUnion "MyTagUnion" myTagUnionVariants)) ∧
    (emitTaggedUnion "MyTagUnion" myTagUnionVariants).tagEnum.name = "tag_MyTagUnion" ∧
    (emitTaggedUnion "MyTagUnion" myTagUnionVariants).manualImpls =
      ["Drop", "PartialEq", "Eq", "PartialOrd", "Ord", "Clone", "Debug"] := by
  refine ⟨by rfl, by rfl, by rfl⟩

theorem fixture_cons_list_of_strings_structure :
    emitType strConsListTy =
      some (.nullPtrE
        { name := "StrConsList"
          tagEnum :=
            { name := "tag_StrConsList"
              derives := deriveListEnum
              tags := [("Cons", 0), ("Nil", 1)] }
          derives := ["Clone", "Eq", "Ord", "Hash", "PartialEq", "PartialOrd"]
          structFields := ["pointer"] }) := by
  rfl

end RocBindgen
